import Mathlib

/-!
Shallow embedding of the order-execution engine of the repository
(src/autotrader.py and src/kalshi/kalshi_client.py), together with
proofs settling the frozen claims about it.

Modelling conventions:
* Python floats are modelled as rationals (ℚ); Python ints as ℤ/ℕ.
  Where a property turns on binary64 rounding rather than on the
  structure of the code, the float arithmetic itself is modelled
  exactly: every binary64 value is a rational, and each float
  operation is "exact rational result, rounded by `roundDouble`"
  (see `quarter_kelly_contracts64`).
* Python `round(x, n)` (banker's rounding) is `roundHalfEven`.
* Fallible operations return `Option`; exceptions caught inside a
  function are modelled by the enumerated outcome fed to it.
* External effects (HTTP responses, the wall clock, file contents,
  environment variables) are passed in as explicit parameters, and the
  exchange calls a function performs are returned as an explicit list,
  so "no network request is made" is the statement `calls = []`.
* The wall-clock `ts` field stored with each recorded order is not
  modelled; no claim mentions it.
-/

namespace Autotrader

/-- Python `round` at 0 digits: round half to even (banker's rounding),
as used in `int(round(price * 100))` and `round(p, 2)`. -/
def roundHalfEven (q : ℚ) : ℤ :=
  let f : ℤ := ⌊q⌋
  let r : ℚ := q - f
  if r < 1/2 then f
  else if (1:ℚ)/2 < r then f + 1
  else if f % 2 = 0 then f else f + 1

/-- Python `round(q, 2)`: banker's rounding to two decimal places. -/
def round2 (q : ℚ) : ℚ := (roundHalfEven (q * 100) : ℚ) / 100

/-- `AutotradeConfig` from src/autotrader.py (the fields the engine
reads; paths and poll interval are threaded separately where needed). -/
structure Config where
  bankroll : ℚ
  min_edge : ℚ := 15/100
  kelly_fraction : ℚ := 25/100
  maker_discount : ℚ := 2/100
  min_price : ℚ := 1/100
  max_price : ℚ := 99/100
  max_daily_exposure : ℚ := 300
  max_per_market_exposure : ℚ := 75
  max_orders_per_run : ℕ := 40
  order_retries : ℕ := 3
deriving Repr

/-- `AutoTrader._quarter_kelly_contracts` under exact rational
arithmetic (the binary64-faithful version is
`quarter_kelly_contracts64` below).  `int(dollars / price)` truncates
toward zero; on the branch reached, `dollars > 0` and `0 < price`, so
truncation equals `⌊dollars / price⌋`. -/
def quarter_kelly_contracts (cfg : Config) (model_prob price : ℚ) : ℤ :=
  if price ≤ 0 ∨ 1 ≤ price then 0
  else
    let full_kelly := (model_prob - price) / (1 - price)
    let frac := max 0 full_kelly * cfg.kelly_fraction
    let dollars := cfg.bankroll * frac
    if dollars ≤ 0 then 0
    else ⌊dollars / price⌋

/-- `AutoTrader._maker_price`. -/
def maker_price (cfg : Config) (fair_prob : ℚ) : ℚ :=
  let p := fair_prob - cfg.maker_discount
  let p := max cfg.min_price (min cfg.max_price p)
  round2 p

/-- IEEE-754 binary64 rounding (round to nearest, ties to even) for
values in the normal range, which the sizing computation never
leaves: the exact rational value is scaled so that the 53-bit
significand becomes the integer part, rounded half-to-even, and
scaled back.  Every Python float operation produces the exact
rational result of the operation rounded by this function, and every
binary64 value is a rational, so the float arithmetic of the source
is itself expressible over ℚ.  (Overflow and subnormals are outside
the range this development evaluates and are not modelled.) -/
def roundDouble (q : ℚ) : ℚ :=
  if q = 0 then 0
  else
    let e : ℤ := Int.log 2 |q| - 52
    (roundHalfEven (q / 2 ^ e) : ℚ) * 2 ^ e

/-- Python float subtraction (exact difference, rounded). -/
def fsub (a b : ℚ) : ℚ := roundDouble (a - b)

/-- Python float multiplication (exact product, rounded). -/
def fmul (a b : ℚ) : ℚ := roundDouble (a * b)

/-- Python float division (exact quotient, rounded). -/
def fdiv (a b : ℚ) : ℚ := roundDouble (a / b)

/-- `AutoTrader._quarter_kelly_contracts` with the source's binary64
float arithmetic made explicit, operation by operation in the
source's order (`bankroll` and `kelly_fraction` are the config
floats; comparisons of floats compare the represented rationals
exactly).  `quarter_kelly_contracts` is the same function under
idealized exact-rational arithmetic. -/
def quarter_kelly_contracts64
    (bankroll kelly_fraction model_prob price : ℚ) : ℤ :=
  if price ≤ 0 ∨ 1 ≤ price then 0
  else
    let full_kelly := fdiv (fsub model_prob price) (fsub 1 price)
    let frac := fmul (max 0 full_kelly) kelly_fraction
    let dollars := fmul bankroll frac
    if dollars ≤ 0 then 0
    else ⌊fdiv dollars price⌋

end Autotrader

namespace Kalshi

/-- Outcome of one HTTP attempt inside `KalshiClient._request`
(src/kalshi/kalshi_client.py).  `rateLimited` is a 429 status;
`requestException` is any `requests.RequestException` (raised status,
timeout, connection error, undecodable JSON body); `okEmpty` is a 2xx
response with an empty body; `okJson d` is a 2xx response whose body
decodes to `d`. -/
inductive HttpOutcome (D : Type) where
  | rateLimited
  | requestException
  | okEmpty
  | okJson (d : D)
deriving Repr

/-- Hard-coded `max_retries = 3` in `KalshiClient._request`. -/
def maxRetries : ℕ := 3

/-- The `for attempt in range(max_retries)` loop of
`KalshiClient._request`: `fuel` counts the remaining attempts
(`attempt < max_retries - 1`, i.e. "not the last attempt", is
`fuel ≠ 0` with one attempt consumed).  On a 429 the loop sleeps
`2 ^ attempt` and continues (also after the last attempt, before the
final `return None`); on a `RequestException` it sleeps and continues
unless this was the last attempt, in which case it returns None
without sleeping.  Returns the wrapper's value (`none` is Python
`None`; `some none` models returning `{}` for an empty body) together
with the list of backoff sleeps performed (in seconds). -/
def requestLoop (D : Type) (outcomes : ℕ → HttpOutcome D) :
    ℕ → ℕ → Option (Option D) × List ℕ
  | _, 0 => (none, [])
  | attempt, fuel + 1 =>
    match outcomes attempt with
    | .rateLimited =>
      let rest := requestLoop D outcomes (attempt + 1) fuel
      (rest.1, 2 ^ attempt :: rest.2)
    | .requestException =>
      if fuel = 0 then (none, [])
      else
        let rest := requestLoop D outcomes (attempt + 1) fuel
        (rest.1, 2 ^ attempt :: rest.2)
    | .okEmpty => (some none, [])
    | .okJson d => (some (some d), [])

/-- `KalshiClient._request`: value returned to the caller and the list
of backoff sleeps. -/
def request (D : Type) (outcomes : ℕ → HttpOutcome D) :
    Option (Option D) × List ℕ :=
  requestLoop D outcomes 0 maxRetries

/-- Credential state of a `KalshiClient`: whether a private key was
loaded, and the `KALSHI_KEY_ID` value (empty string when unset). -/
structure ClientAuth where
  hasPrivateKey : Bool
  apiKeyId : String
deriving Repr

/-- `KalshiClient.can_auth_trade`: `bool(self.private_key and
self.api_key_id)` — an empty key id is falsy. -/
def can_auth_trade (c : ClientAuth) : Bool :=
  c.hasPrivateKey && !(c.apiKeyId == "")

/-- Result of an auth-requiring operation paired with the number of
network requests it performed. -/
structure AuthCall (α : Type) where
  result : α
  requestsMade : ℕ
deriving Repr

/-- `KalshiClient.place_order`.  `netResult` is what `_request` would
return for the POST.  Fails closed on missing credentials and on
non-positive count, in that order, before any network activity. -/
def place_order (D : Type) (c : ClientAuth) (count : ℤ)
    (netResult : Option D) : AuthCall (Option D) :=
  if ¬ can_auth_trade c then ⟨none, 0⟩
  else if count ≤ 0 then ⟨none, 0⟩
  else ⟨netResult, 1⟩

/-- `KalshiClient.get_open_orders`.  `netResult` is the parsed order
list when the GET succeeds (`none` models `_request` returning None). -/
def get_open_orders (D : Type) (c : ClientAuth)
    (netResult : Option (List D)) : AuthCall (List D) :=
  if ¬ can_auth_trade c then ⟨[], 0⟩
  else
    match netResult with
    | none => ⟨[], 1⟩
    | some orders => ⟨orders, 1⟩

/-- `KalshiClient.cancel_order`: true iff the DELETE returned a
non-None value. -/
def cancel_order (c : ClientAuth) (netOk : Bool) : AuthCall Bool :=
  if ¬ can_auth_trade c then ⟨false, 0⟩
  else ⟨netOk, 1⟩

/-- `KalshiClient.auth_preflight_check`: requires credentials, then an
authenticated read of portfolio orders to succeed. -/
def auth_preflight_check (c : ClientAuth) (netOk : Bool) : AuthCall Bool :=
  if ¬ can_auth_trade c then ⟨false, 0⟩
  else ⟨netOk, 1⟩

end Kalshi

namespace Autotrader

/-- Contents of the state file as seen by `AutoTrader._load_state`:
missing, raising on open/read, raising inside `json.load`, or decoding
to a value `s`. -/
inductive StateFile (S : Type) where
  | missing
  | unreadable
  | invalidJson
  | valid (s : S)

/-- The ledger state: `{"by_date": {...}}`.  A `Bucket` is one date's
entry `{"submitted_ids": [...], "orders": [...]}`. -/
structure RecordedOrder where
  ticker : String
  team_name : String
  side : String
  action : String
  count : ℤ
  yes_price : ℚ
  post_only : Bool
  client_order_id : String
  order_id : String
  notional : ℚ
deriving Repr, DecidableEq

structure Bucket where
  submitted_ids : List String := []
  orders : List RecordedOrder := []
deriving Repr, DecidableEq

/-- `AutoTrader._load_state`, with `S` instantiated by the decoded
ledger for well-formed files.  Every failure path returns the fresh
default `{"by_date": {}}` (here: the designated `default` value). -/
def load_state (S : Type) (default : S) : StateFile S → S
  | .missing => default
  | .unreadable => default
  | .invalidJson => default
  | .valid s => s

/-- Python `str.strip()`: drop whitespace from both ends (strings are
handled as their character lists throughout). -/
def pyStrip (cs : List Char) : List Char :=
  ((cs.dropWhile Char.isWhitespace).reverse.dropWhile Char.isWhitespace).reverse

/-- `AutoTrader._kill_switch_enabled`: the environment value is
stripped and lower-cased; truthy values are "1", "true", "on", "yes";
otherwise the sentinel file decides. -/
def kill_switch_enabled (envValue : String) (fileExists : Bool) : Bool :=
  let v := (pyStrip envValue.data).map Char.toLower
  if v == "1".data || v == "true".data || v == "on".data || v == "yes".data
  then true
  else fileExists

/-- `AutoTrader._idempotency_id`. -/
def idempotency_id (dateKey ticker side action : String)
    (yes_price_cents : ℤ) (post_only : Bool) : String :=
  let mode := if post_only then "mm" else "tk"
  mode ++ "-" ++ dateKey ++ "-" ++ ticker ++ "-" ++ side ++ "-" ++ action
    ++ "-" ++ toString yes_price_cents

/-- `AutoTrader._daily_notional`: sum of notional over today's
recorded orders. -/
def daily_notional (b : Bucket) : ℚ :=
  (b.orders.map (·.notional)).sum

/-- `AutoTrader._market_notional`: sum of notional over today's
recorded orders for one ticker. -/
def market_notional (b : Bucket) (ticker : String) : ℚ :=
  ((b.orders.filter (·.ticker == ticker)).map (·.notional)).sum

/-- `AutoTrader._can_allocate_notional`. -/
def can_allocate_notional (cfg : Config) (b : Bucket) (ticker : String)
    (notional : ℚ) : Bool :=
  if cfg.max_daily_exposure < daily_notional b + notional then false
  else if cfg.max_per_market_exposure < market_notional b ticker + notional then false
  else true

/-- `AutoTrader._record_order`: append the client order id and the
order to today's bucket (then write-through persist, which the
in-memory bucket reflects). -/
def record_order (b : Bucket) (o : RecordedOrder) : Bucket :=
  { submitted_ids := b.submitted_ids ++ [o.client_order_id],
    orders := b.orders ++ [o] }

/-- The market-price fields `_taker_price` reads from
`KalshiClient.get_market_prices` (0 models a falsy/absent field or a
failed request). -/
structure MarketPrices where
  yes_buy_price : ℚ := 0
  last_price : ℚ := 0
deriving Repr

/-- `AutoTrader._taker_price`: best YES ask when positive, else last
trade price. -/
def taker_price (p : MarketPrices) : ℚ :=
  if 0 < p.yes_buy_price then p.yes_buy_price else p.last_price

/-- The exchange-client operations the engine can invoke; each value
is one client-method invocation observed during a run. -/
inductive ExchangeCall where
  | getOpenOrders
  | getMarketPrices (ticker : String)
  | placeOrder (ticker side action : String) (count : ℤ)
      (yes_price_cents : ℤ) (post_only : Bool) (client_order_id : String)
deriving Repr, DecidableEq

/-- `AutoTrader._extract_order_id` result applied in `_place`:
`final_order_id` is replaced only by a truthy extracted id (Python
`if response_order_id:` — `None` and `""` are both falsy). -/
def final_order_id (client_order_id : String) (extracted : Option String) : String :=
  match extracted with
  | some s => if s == "" then client_order_id else s
  | none => client_order_id

/-- Result of the retry loop in `AutoTrader._place`:
`success = some e` means some attempt returned a non-None response
whose extracted order id is `e`; `attemptsMade` counts calls to
`client.place_order`; `sleeps` are the backoff sleeps (seconds). -/
structure PlaceLoopOut where
  success : Option (Option String)
  attemptsMade : ℕ
  sleeps : List ℕ
deriving Repr

/-- The `for attempt in range(order_retries)` loop of
`AutoTrader._place`: `fuel` is the number of remaining attempts,
`attempt` the current attempt index, `resp attempt` the value
`client.place_order` returns on that attempt (`none` = Python None,
`some e` = a response with extracted order id `e`).  Each failed
attempt sleeps `2 ^ attempt` seconds. -/
def place_loop (resp : ℕ → Option (Option String)) :
    ℕ → ℕ → PlaceLoopOut
  | attempt, 0 => ⟨none, attempt, []⟩
  | attempt, fuel + 1 =>
    match resp attempt with
    | some extracted => ⟨some extracted, attempt + 1, []⟩
    | none =>
      let rest := place_loop resp (attempt + 1) fuel
      ⟨rest.success, rest.attemptsMade, 2 ^ attempt :: rest.sleeps⟩

/-- Output of `AutoTrader._place`. -/
structure PlaceOut where
  result : Option RecordedOrder
  bucket : Bucket
  calls : List ExchangeCall
  sleeps : List ℕ
deriving Repr

/-- `AutoTrader._place`.  In live mode the exchange call is retried up
to `order_retries` times; exhausting retries returns None with the
bucket untouched (no id added, no order appended, no state write —
`_record_order`, the only state write, is never reached).  On success,
or always in sim mode, exactly one order is recorded. -/
def place (cfg : Config) (resp : ℕ → Option (Option String)) (live : Bool)
    (ticker team_name side action : String) (count : ℤ) (yes_price : ℚ)
    (post_only : Bool) (order_id : String) (notional : ℚ) (b : Bucket) :
    PlaceOut :=
  let yes_price_cents := roundHalfEven (yes_price * 100)
  if live then
    let out := place_loop resp 0 cfg.order_retries
    let calls := List.replicate out.attemptsMade
      (ExchangeCall.placeOrder ticker side action count yes_price_cents
        post_only order_id)
    match out.success with
    | none => ⟨none, b, calls, out.sleeps⟩
    | some extracted =>
      let o : RecordedOrder :=
        ⟨ticker, team_name, side, action, count, yes_price, post_only,
          order_id, final_order_id order_id extracted, notional⟩
      ⟨some o, record_order b o, calls, out.sleeps⟩
  else
    let o : RecordedOrder :=
      ⟨ticker, team_name, side, action, count, yes_price, post_only,
        order_id, order_id, notional⟩
    ⟨some o, record_order b o, [], []⟩

/-- The `Bet` fields `trade_best_edges` reads (src/ev.py; the other
fields are never consulted by the engine). -/
structure Bet where
  model_prob_or_exp_payout : ℚ
  ev : ℚ
  contract_ticker : String
  team_name : String
deriving Repr

/-- The external world one run of `trade_best_edges` observes: the
kill-switch environment variable and sentinel file, today's date key,
per-ticker market prices, the client-order-ids of currently-open
exchange orders ("" models an absent id), and the per-invocation,
per-attempt responses of `client.place_order`. -/
structure Env where
  killEnvValue : String := ""
  killFileExists : Bool := false
  dateKey : String
  marketPrices : String → MarketPrices
  openOrderCids : List String := []
  placeResp : ℕ → ℕ → Option (Option String) := fun _ _ => some none

/-- Mutable state carried through the candidate loop of
`trade_best_edges`. -/
structure RunState where
  bucket : Bucket
  taker : List RecordedOrder := []
  maker : List RecordedOrder := []
  placed_count : ℕ := 0
  placeCallIdx : ℕ := 0
  calls : List ExchangeCall := []

/-- The chosen (post_only, price) pair for one candidate: the taker
price when positive, otherwise the maker price with post-only set. -/
def chosen (cfg : Config) (env : Env) (bet : Bet) : Bool × ℚ :=
  let tp := taker_price (env.marketPrices bet.contract_ticker)
  if tp ≤ 0 then (true, maker_price cfg bet.model_prob_or_exp_payout)
  else (false, tp)

/-- One iteration of the candidate loop of
`AutoTrader.trade_best_edges` (the body after the
`max_orders_per_run` break check). -/
def trade_step (cfg : Config) (env : Env) (live : Bool)
    (existing_ids open_ids : List String) (bet : Bet) (st : RunState) :
    RunState :=
  let st := { st with
    calls := st.calls ++ [ExchangeCall.getMarketPrices bet.contract_ticker] }
  let post_only := (chosen cfg env bet).1
  let price := (chosen cfg env bet).2
  let count := quarter_kelly_contracts cfg bet.model_prob_or_exp_payout price
  if count ≤ 0 then st
  else
    let notional := (count : ℚ) * price
    if ¬ can_allocate_notional cfg st.bucket bet.contract_ticker notional then st
    else
      let yes_price_cents := roundHalfEven (price * 100)
      let order_id := idempotency_id env.dateKey bet.contract_ticker
        "YES" "BUY" yes_price_cents post_only
      if order_id ∈ existing_ids ∨ order_id ∈ open_ids then st
      else
        let out := place cfg (env.placeResp st.placeCallIdx) live
          bet.contract_ticker bet.team_name "YES" "BUY" count price
          post_only order_id notional st.bucket
        let st := { st with
          bucket := out.bucket,
          calls := st.calls ++ out.calls,
          placeCallIdx := st.placeCallIdx + 1 }
        match out.result with
        | none => st
        | some o =>
          if post_only then
            { st with
              maker := st.maker ++ [o],
              placed_count := st.placed_count + 1 }
          else
            { st with
              taker := st.taker ++ [o],
              placed_count := st.placed_count + 1 }

/-- The candidate loop of `trade_best_edges`, including the
`placed_count >= max_orders_per_run` break. -/
def trade_loop (cfg : Config) (env : Env) (live : Bool)
    (existing_ids open_ids : List String) :
    List Bet → RunState → RunState
  | [], st => st
  | bet :: rest, st =>
    if cfg.max_orders_per_run ≤ st.placed_count then st
    else trade_loop cfg env live existing_ids open_ids rest
      (trade_step cfg env live existing_ids open_ids bet st)

/-- Result of one run of `trade_best_edges`: the returned taker and
maker order lists, today's ledger bucket after the run, and every
exchange-client invocation made. -/
structure RunOut where
  taker : List RecordedOrder
  maker : List RecordedOrder
  bucket : Bucket
  calls : List ExchangeCall

/-- Stable insert of `x` behind every already-placed element whose ev
is at least `x.ev`. -/
def insertByEvDesc (x : Bet) : List Bet → List Bet
  | [] => [x]
  | a :: rest =>
    if a.ev < x.ev then x :: a :: rest else a :: insertByEvDesc x rest

/-- `candidates.sort(key=lambda b: b.ev, reverse=True)`: Python's
`list.sort` is a stable sort, so the result is determined by
"descending ev, ties in original order", which this stable insertion
sort computes. -/
def sortByEvDesc (l : List Bet) : List Bet :=
  l.foldl (fun acc x => insertByEvDesc x acc) []

/-- `AutoTrader.trade_best_edges`, as a function of the config, the
observed environment, the bet list, the live flag, and today's ledger
bucket `b` at run start.  Candidates are the bets with
`ev >= min_edge` and a non-empty ticker, stably sorted by descending
ev (Python `list.sort(key=..., reverse=True)`); `existing_ids` is the
snapshot of today's submitted ids taken once at run start, and
`open_ids` the snapshot of open exchange orders (live mode only). -/
def trade_best_edges (cfg : Config) (env : Env) (bets : List Bet)
    (live : Bool) (b : Bucket) : RunOut :=
  if kill_switch_enabled env.killEnvValue env.killFileExists then
    ⟨[], [], b, []⟩
  else
    let candidates := sortByEvDesc (bets.filter fun bb =>
      decide (cfg.min_edge ≤ bb.ev) && !(bb.contract_ticker == ""))
    let existing := b.submitted_ids
    let openIds := if live then env.openOrderCids.filter (fun s => !(s == "")) else []
    let initCalls : List ExchangeCall :=
      if live then [ExchangeCall.getOpenOrders] else []
    let st := trade_loop cfg env live existing openIds candidates
      ⟨b, [], [], 0, 0, initCalls⟩
    ⟨st.taker, st.maker, st.bucket, st.calls⟩

/-! ### Tipoff parsing and the cancellation scheduler -/

/-- `\w` of the `re` module on the ASCII inputs in play. -/
def isWordChar (c : Char) : Bool := c.isAlphanum || c == '_'

/-- Whether the next character (if any) is a non-word character, i.e.
a `\b` boundary follows here after a word character. -/
def noWordAhead : List Char → Bool
  | [] => true
  | c :: _ => !isWordChar c

/-- The two-letter zone abbreviations of the pattern
`\b(ET|CT|MT|PT|EST|CST|MST|PST)\b`. -/
def isZone2 (a b : Char) : Bool :=
  (a == 'E' || a == 'C' || a == 'M' || a == 'P') && b == 'T'

/-- The three-letter zone abbreviations of the same pattern. -/
def isZone3 (a b c : Char) : Bool :=
  (a == 'E' || a == 'C' || a == 'M' || a == 'P') && b == 'S' && c == 'T'

/-- A match of `\b(ET|CT|MT|PT|EST|CST|MST|PST)\b` at the head of the
character list, given whether the previous character of the original
string was a word character (every alternative starts and ends with a
word character, so `\b` holds exactly when the neighbours are not).
Returns the remainder after the match.  No two-letter alternative is a
prefix of a three-letter one, so checking lengths in either order
agrees with the regex's ordered alternation. -/
def zoneMatch (prevW : Bool) : List Char → Option (List Char)
  | a :: b :: rest =>
    if prevW then none
    else if isZone2 a b && noWordAhead rest then some rest
    else
      match rest with
      | c :: rest2 =>
        if isZone3 a b c && noWordAhead rest2 then some rest2 else none
      | [] => none
  | _ => none

/-- `re.sub(r"\b(ET|CT|MT|PT|EST|CST|MST|PST)\b", "", s)`: scan left
to right over the original characters, removing non-overlapping
matches; `prevW` tracks whether the previously scanned original
character was a word character (all alternatives end in 'T', a word
character).  The scan consumes at least one character per step, so the
fuel `cs.length` passed by `subZones` never runs out. -/
def subZonesF : ℕ → Bool → List Char → List Char
  | 0, _, cs => cs
  | _ + 1, _, [] => []
  | fuel + 1, prevW, c :: rest =>
    match zoneMatch prevW (c :: rest) with
    | some rem => subZonesF fuel true rem
    | none => c :: subZonesF fuel (isWordChar c) rest

def subZones (prevW : Bool) (cs : List Char) : List Char :=
  subZonesF cs.length prevW cs

/-- `re.sub(r"\s+", " ", s)`: each maximal whitespace run becomes one
space (fuelled like `subZonesF`; each step consumes at least one
character, so the fuel `cs.length` never runs out). -/
def collapseWSF : ℕ → List Char → List Char
  | 0, cs => cs
  | _ + 1, [] => []
  | fuel + 1, c :: rest =>
    if c.isWhitespace then
      ' ' :: collapseWSF fuel (rest.dropWhile Char.isWhitespace)
    else c :: collapseWSF fuel rest

def collapseWS (cs : List Char) : List Char :=
  collapseWSF cs.length cs

/-- strptime `%I` (`1[0-2]|0[1-9]|[1-9]`, ordered alternation). -/
def parseI : List Char → Option (ℕ × List Char)
  | '1' :: c :: rest =>
    if c == '0' || c == '1' || c == '2' then
      some (10 + (c.toNat - 48), rest)
    else some (1, c :: rest)
  | '0' :: c :: rest =>
    if '1' ≤ c ∧ c ≤ '9' then some (c.toNat - 48, rest) else none
  | c :: rest =>
    if '1' ≤ c ∧ c ≤ '9' then some (c.toNat - 48, rest) else none
  | [] => none

/-- strptime `%M` (`[0-5]\d|\d`). -/
def parseM : List Char → Option (ℕ × List Char)
  | a :: b :: rest =>
    if ('0' ≤ a ∧ a ≤ '5') ∧ b.isDigit then
      some ((a.toNat - 48) * 10 + (b.toNat - 48), rest)
    else if a.isDigit then some (a.toNat - 48, b :: rest)
    else none
  | [a] => if a.isDigit then some (a.toNat - 48, []) else none
  | [] => none

/-- strptime `%p` (locale AM/PM, matched case-insensitively; result is
true for PM). -/
def parseP : List Char → Option (Bool × List Char)
  | a :: b :: rest =>
    if (a == 'A' || a == 'a') && (b == 'M' || b == 'm') then some (false, rest)
    else if (a == 'P' || a == 'p') && (b == 'M' || b == 'm') then some (true, rest)
    else none
  | _ => none

/-- Whitespace in a strptime format matches one or more whitespace
characters. -/
def parseWS : List Char → Option (List Char)
  | c :: rest =>
    if c.isWhitespace then some (rest.dropWhile Char.isWhitespace) else none
  | [] => none

/-- strptime hour-of-day from `%I` and `%p`. -/
def hour24 (h12 : ℕ) (pm : Bool) : ℕ :=
  if pm then (if h12 == 12 then 12 else h12 + 12)
  else (if h12 == 12 then 0 else h12)

/-- `datetime.strptime(s, "%I:%M %p")`, as minute of day; strptime
requires the whole string to be consumed. -/
def strptimeIMp (cs : List Char) : Option ℕ :=
  match parseI cs with
  | none => none
  | some (h, rest) =>
    match rest with
    | ':' :: rest2 =>
      match parseM rest2 with
      | none => none
      | some (m, rest3) =>
        if m ≤ 59 then
          match parseWS rest3 with
          | none => none
          | some rest4 =>
            match parseP rest4 with
            | some (pm, []) => some (hour24 h pm * 60 + m)
            | _ => none
        else none
    | _ => none

/-- `datetime.strptime(s, "%I %p")`, as minute of day (minute defaults
to 0). -/
def strptimeIp (cs : List Char) : Option ℕ :=
  match parseI cs with
  | none => none
  | some (h, rest) =>
    match parseWS rest with
    | none => none
    | some rest2 =>
      match parseP rest2 with
      | some (pm, []) => some (hour24 h pm * 60)
      | _ => none

/-- `AutoTrader._parse_tipoff_text`: strip and upper-case, delete zone
abbreviation tokens, strip again, collapse whitespace, then try the
formats `"%I:%M %p"` and `"%I %p"` in order.  The result is the wall
clock in the schedule timezone, as minute of day (the date it is
combined with is immediately overwritten by the caller's target
date). -/
def parse_tipoff_text (text : String) : Option ℕ :=
  let cleaned := subZones false ((pyStrip text.data).map Char.toUpper)
  let cleaned := pyStrip cleaned
  let cleaned := collapseWS cleaned
  match strptimeIMp cleaned with
  | some m => some m
  | none => strptimeIp cleaned

/-- A scheduled event as the scheduler sees it: the value of its
"time" field ("" models a missing or empty value). -/
structure Game where
  time : String

/-- A calendar date (the `target_date` argument). -/
structure Date where
  year : ℕ
  month : ℕ
  day : ℕ
deriving Repr, DecidableEq

/-- A parsed tipoff: a wall-clock minute of day anchored to a date.
Both the trader and schedule timezones default to the same zone
("America/Chicago"), under which `astimezone` leaves the wall time
unchanged; zoneinfo calendar conversion is not modelled further. -/
structure TipoffDT where
  date : Date
  minuteOfDay : ℕ
deriving Repr, DecidableEq

/-- The minutes of day successfully parsed from the games' time texts
(events with an empty or unparsable text are skipped). -/
def parsedTipoffs (games : List Game) : List ℕ :=
  games.filterMap fun g =>
    let t := pyStrip g.time.data
    if t == [] then none else parse_tipoff_text (String.mk t)

/-- `AutoTrader._first_tipoff_datetime`: each parsed time is anchored
to the target date and the minimum is taken; None when nothing
parses. -/
def first_tipoff_datetime (games : List Game) (target : Date) :
    Option TipoffDT :=
  match parsedTipoffs games with
  | [] => none
  | m :: ms => some ⟨target, ms.foldl min m⟩

/-- Environment of one scheduler invocation:
`secondsUntilTipoff dt` is `(dt - now).total_seconds()` truncated to
int, `openOrders` the `(client_order_id, order_id)` pairs returned by
`get_open_orders` ("" models an absent field), and `cancelOk` whether
`cancel_order` succeeds for a given id. -/
structure SchedEnv where
  secondsUntilTipoff : TipoffDT → ℤ
  dateKey : String
  openOrders : List (String × String) := []
  cancelOk : String → Bool := fun _ => true

/-- Exchange-client invocations the cancellation scheduler can make. -/
inductive CancelCall where
  | getOpenOrders
  | cancelOrder (order_id : String)
deriving Repr, DecidableEq

/-- One cancellation pass over the collected order ids: in sim mode
every id counts as canceled; in live mode `cancel_order` is invoked
and counted when it succeeds. -/
def cancelPass (env : SchedEnv) (live : Bool) (ids : List String) :
    ℕ × List CancelCall :=
  match ids with
  | [] => (0, [])
  | oid :: rest =>
    let (n, cs) := cancelPass env live rest
    if live then
      (if env.cancelOk oid then n + 1 else n, CancelCall.cancelOrder oid :: cs)
    else (n + 1, cs)

/-- `AutoTrader.cancel_maker_orders_at_first_tipoff`, returning the
count of canceled orders, the total seconds slept waiting for tipoff
(the wait loop sleeps in `poll_seconds` increments summing to the
wait), and the exchange calls made.  With no parsable tipoff it
returns 0 immediately: no wait, no exchange call, no cancellation. -/
def cancel_maker_orders_at_first_tipoff (env : SchedEnv)
    (games : List Game) (maker_orders : List RecordedOrder)
    (target : Date) (live : Bool) : ℕ × ℕ × List CancelCall :=
  match first_tipoff_datetime games target with
  | none => (0, 0, [])
  | some ft =>
    let waited : ℕ :=
      if 0 < env.secondsUntilTipoff ft then (env.secondsUntilTipoff ft).toNat
      else 0
    let order_ids := maker_orders.filterMap fun o =>
      if o.order_id == "" then none else some o.order_id
    let fallback : List String :=
      if live ∧ order_ids = [] then
        env.openOrders.filterMap fun p =>
          if ("mm-".data <+: p.1.data) ∧ (env.dateKey.data <:+: p.1.data)
              ∧ ¬ p.2 == "" then some p.2
          else none
      else []
    let fallbackCalls : List CancelCall :=
      if live ∧ order_ids = [] then [CancelCall.getOpenOrders] else []
    let (n, calls) := cancelPass env live (order_ids ++ fallback)
    (n, waited, fallbackCalls ++ calls)

end Autotrader

/-! ## Theorems settling the claims -/

namespace Autotrader

/-- `roundDouble` at a value whose normal binary64 exponent places the
53-bit significand at `2 ^ (-k)`: the hypotheses pin the significand
window, so the rounding is half-to-even at `k` fractional bits. -/
theorem roundDouble_eq_neg (q : ℚ) (k : ℕ) (hq : q ≠ 0)
    (h1 : (2:ℚ) ^ 52 ≤ |q| * 2 ^ k) (h2 : |q| * 2 ^ k < 2 ^ 53) :
    roundDouble q = (roundHalfEven (q * 2 ^ k) : ℚ) / 2 ^ k := by
  have hqpos : (0:ℚ) < |q| := abs_pos.mpr hq
  have hkpos : (0:ℚ) < (2:ℚ) ^ k := by positivity
  have hl : ((52:ℤ) - k) ≤ Int.log 2 |q| := by
    rw [← Int.zpow_le_iff_le_log (by norm_num) hqpos]
    have hcast : ((2:ℕ):ℚ) ^ ((52:ℤ) - k) = (2:ℚ) ^ (52:ℕ) / (2:ℚ) ^ k := by
      push_cast
      rw [zpow_sub₀ (by norm_num : (2:ℚ) ≠ 0), zpow_natCast]
      norm_num
    rw [hcast, div_le_iff₀ hkpos]
    exact h1
  have hu : Int.log 2 |q| < (53:ℤ) - k := by
    rw [← Int.lt_zpow_iff_log_lt (by norm_num) hqpos]
    have hcast : ((2:ℕ):ℚ) ^ ((53:ℤ) - k) = (2:ℚ) ^ (53:ℕ) / (2:ℚ) ^ k := by
      push_cast
      rw [zpow_sub₀ (by norm_num : (2:ℚ) ≠ 0), zpow_natCast]
      norm_num
    rw [hcast, lt_div_iff₀ hkpos]
    exact h2
  have hlog : Int.log 2 |q| = 52 - k := by omega
  unfold roundDouble
  rw [if_neg hq]
  simp only []
  rw [hlog]
  have he : ((52:ℤ) - k - 52) = -(k:ℤ) := by ring
  rw [he, zpow_neg, zpow_natCast, div_eq_mul_inv, inv_inv, ← div_eq_mul_inv]

theorem roundDouble_eq_pos (q : ℚ) (k : ℕ) (hqpos : 0 < q)
    (h1 : (2:ℚ) ^ 52 ≤ q * 2 ^ k) (h2 : q * 2 ^ k < 2 ^ 53) :
    roundDouble q = (roundHalfEven (q * 2 ^ k) : ℚ) / 2 ^ k := by
  apply roundDouble_eq_neg q k (ne_of_gt hqpos) <;>
    rwa [abs_of_pos hqpos]

/-- The binary64 value of the Python literal `0.6`:
`5404319552844595 / 2^53 = 0.59999999999999997779…`. -/
theorem roundDouble_lit06 :
    roundDouble (6/10) = 5404319552844595 / 9007199254740992 := by
  rw [roundDouble_eq_pos (6/10) 53 (by norm_num) (by norm_num) (by norm_num)]
  norm_num [roundHalfEven]

/-- The float evaluation of the sizing function at the spec's example:
`0.6 - 0.5` rounds to `0.09999999999999998`, `dollars` to
`49.999999999999986`, and `int(dollars / 0.5)` truncates to 99 — not
the 100 of exact arithmetic. -/
theorem quarter_kelly64_at_example :
    quarter_kelly_contracts64 1000 (1/4)
      (5404319552844595 / 9007199254740992) (1/2) = 99 := by
  have e1 : fsub (5404319552844595 / 9007199254740992) (1/2) =
      900719925474099 / 9007199254740992 := by
    unfold fsub
    rw [roundDouble_eq_pos (5404319552844595 / 9007199254740992 - 1/2) 56
      (by norm_num) (by norm_num) (by norm_num)]
    norm_num [roundHalfEven]
  have e2 : fsub 1 (1/2) = 1/2 := by
    unfold fsub
    rw [roundDouble_eq_pos ((1:ℚ) - 1/2) 53
      (by norm_num) (by norm_num) (by norm_num)]
    norm_num [roundHalfEven]
  have e3 : fdiv (900719925474099 / 9007199254740992) (1/2) =
      900719925474099 / 4503599627370496 := by
    unfold fdiv
    rw [roundDouble_eq_pos (900719925474099 / 9007199254740992 / (1/2)) 55
      (by norm_num) (by norm_num) (by norm_num)]
    norm_num [roundHalfEven]
  have e4 : fmul (max 0 (900719925474099 / 4503599627370496)) (1/4) =
      900719925474099 / 18014398509481984 := by
    rw [max_eq_right (by norm_num : (0:ℚ) ≤ 900719925474099 / 4503599627370496)]
    unfold fmul
    rw [roundDouble_eq_pos (900719925474099 / 4503599627370496 * (1/4)) 57
      (by norm_num) (by norm_num) (by norm_num)]
    norm_num [roundHalfEven]
  have e5 : fmul 1000 (900719925474099 / 18014398509481984) =
      7036874417766398 / 140737488355328 := by
    unfold fmul
    rw [roundDouble_eq_pos ((1000:ℚ) * (900719925474099 / 18014398509481984)) 47
      (by norm_num) (by norm_num) (by norm_num)]
    norm_num [roundHalfEven]
  have e6 : fdiv (7036874417766398 / 140737488355328) (1/2) =
      7036874417766398 / 70368744177664 := by
    unfold fdiv
    rw [roundDouble_eq_pos (7036874417766398 / 140737488355328 / (1/2)) 46
      (by norm_num) (by norm_num) (by norm_num)]
    norm_num [roundHalfEven]
  unfold quarter_kelly_contracts64
  rw [if_neg (by norm_num)]
  simp only []
  rw [e1, e2, e3, e4, e5, if_neg (by norm_num), e6]
  norm_num

/-- C3 counterexample: at the claim's own example — modelProb the
binary64 value of the literal 0.6, price 0.50, kellyFraction 0.25,
bankroll 1000 — the program's float arithmetic yields 99 contracts,
not the claimed 100: `0.6 - 0.5 = 0.09999999999999998` in binary64,
so `dollars = 49.999999999999986` and `int(dollars / 0.5) = 99`. -/
theorem quarter_kelly_float_counterexample :
    roundDouble (6/10) = 5404319552844595 / 9007199254740992 ∧
    quarter_kelly_contracts64 1000 (1/4)
      (5404319552844595 / 9007199254740992) (1/2) = 99 ∧
    quarter_kelly_contracts64 1000 (1/4)
      (5404319552844595 / 9007199254740992) (1/2) ≠ 100 :=
  ⟨roundDouble_lit06, quarter_kelly64_at_example, by
    rw [quarter_kelly64_at_example]
    norm_num⟩

/-- C3 (amended): the sizing function returns 0 when price ≤ 0 or
price ≥ 1; otherwise, computing in the program's binary64 float
arithmetic and in the source's operation order, it returns 0 whenever
the dollar amount is zero or negative and `⌊dollars /. price⌋`
otherwise; at the example modelProb = 0.6 (its binary64 value),
price = 0.50, kellyFraction = 0.25, bankroll = 1000 the program
yields count 99, the exact-rational evaluation of the same formula
being 100. -/
theorem quarter_kelly_float_spec (bankroll kf mp price : ℚ) :
    (price ≤ 0 ∨ 1 ≤ price →
      quarter_kelly_contracts64 bankroll kf mp price = 0) ∧
    (0 < price → price < 1 →
      quarter_kelly_contracts64 bankroll kf mp price =
        if fmul bankroll
            (fmul (max 0 (fdiv (fsub mp price) (fsub 1 price))) kf) ≤ 0
        then 0
        else ⌊fdiv (fmul bankroll
          (fmul (max 0 (fdiv (fsub mp price) (fsub 1 price))) kf)) price⌋) ∧
    quarter_kelly_contracts64 1000 (1/4) (roundDouble (6/10)) (1/2) = 99 ∧
    quarter_kelly_contracts { bankroll := 1000 } (6/10) (1/2) = 100 := by
  refine ⟨?_, ?_, ?_, by norm_num [quarter_kelly_contracts]⟩
  · intro h
    unfold quarter_kelly_contracts64
    rw [if_pos h]
  · intro h1 h2
    have hne : ¬ (price ≤ 0 ∨ 1 ≤ price) := by push_neg; exact ⟨h1, h2⟩
    simp only [quarter_kelly_contracts64, if_neg hne]
  · rw [roundDouble_lit06]
    exact quarter_kelly64_at_example

theorem quarter_kelly_float_spec_witness :
    quarter_kelly_contracts64 1000 (1/4) (roundDouble (6/10)) 2 = 0 ∧
    quarter_kelly_contracts64 1000 (1/4) (roundDouble (6/10)) (1/2) = 99 :=
  ⟨(quarter_kelly_float_spec 1000 (1/4) (roundDouble (6/10)) 2).1
    (Or.inr (by norm_num)),
   (quarter_kelly_float_spec 1000 (1/4) (roundDouble (6/10)) (1/2)).2.2.1⟩

/-- C10: loading state never raises; every failure mode of the state
file — missing, unreadable, invalid JSON — yields the fresh default
ledger, and only a successfully decoded file yields its contents. -/
theorem load_state_fail_default (S : Type) (d : S) (f : StateFile S)
    (h : ∀ s, f ≠ StateFile.valid s) : load_state S d f = d := by
  cases f with
  | missing => rfl
  | unreadable => rfl
  | invalidJson => rfl
  | valid s => exact absurd rfl (h s)

theorem load_state_fail_default_witness :
    load_state Bucket ⟨[], []⟩ StateFile.invalidJson = ⟨[], []⟩ :=
  load_state_fail_default Bucket ⟨[], []⟩ StateFile.invalidJson
    (fun _ h => StateFile.noConfusion h)

end Autotrader

namespace Kalshi

theorem not_can_auth (c : ClientAuth)
    (h : c.hasPrivateKey = false ∨ c.apiKeyId = "") :
    ¬ can_auth_trade c = true := by
  unfold can_auth_trade
  rcases h with h | h <;> simp [h]

/-- C7: with the private key or the key id absent, every
auth-requiring operation fails closed — returning its failure value
(None, empty list, or False) with zero network requests. -/
theorem auth_fail_closed (c : ClientAuth) (D : Type) (count : ℤ)
    (net1 : Option D) (net2 : Option (List D)) (ok1 ok2 : Bool)
    (h : c.hasPrivateKey = false ∨ c.apiKeyId = "") :
    place_order D c count net1 = ⟨none, 0⟩ ∧
    get_open_orders D c net2 = ⟨[], 0⟩ ∧
    cancel_order c ok1 = ⟨false, 0⟩ ∧
    auth_preflight_check c ok2 = ⟨false, 0⟩ := by
  have hc := not_can_auth c h
  refine ⟨?_, ?_, ?_, ?_⟩ <;>
    simp [place_order, get_open_orders, cancel_order, auth_preflight_check, hc]

theorem auth_fail_closed_witness :
    place_order ℕ ⟨false, "key"⟩ 5 (some 7) = ⟨none, 0⟩ ∧
    get_open_orders ℕ ⟨false, "key"⟩ (some [1]) = ⟨[], 0⟩ ∧
    cancel_order ⟨false, "key"⟩ true = ⟨false, 0⟩ ∧
    auth_preflight_check ⟨false, "key"⟩ true = ⟨false, 0⟩ :=
  auth_fail_closed ⟨false, "key"⟩ ℕ 5 (some 7) (some [1]) true true (Or.inl rfl)

/-- C9: with credentials configured, `place_order` with a non-positive
count returns None without any network request, so no order with a
non-positive contract count is ever submitted through this client. -/
theorem place_order_nonpositive (c : ClientAuth) (D : Type) (count : ℤ)
    (net : Option D) (hauth : can_auth_trade c = true) (hcount : count ≤ 0) :
    place_order D c count net = ⟨none, 0⟩ := by
  unfold place_order
  rw [if_neg (by simp [hauth]), if_pos hcount]

theorem place_order_nonpositive_witness :
    place_order ℕ ⟨true, "key"⟩ 0 (some 7) = ⟨none, 0⟩ :=
  place_order_nonpositive ⟨true, "key"⟩ ℕ 0 (some 7) (by decide) (by decide)

end Kalshi

namespace Autotrader

theorem kill_noop (cfg : Config) (env : Env) (bets : List Bet)
    (live : Bool) (b : Bucket)
    (h : kill_switch_enabled env.killEnvValue env.killFileExists = true) :
    trade_best_edges cfg env bets live b = ⟨[], [], b, []⟩ := by
  unfold trade_best_edges
  rw [if_pos h]

/-- C4: when the kill switch (environment flag truthy, or sentinel
file present) is active at the start of a run, the run returns empty
taker and maker lists, records nothing (the bucket is unchanged), and
makes zero exchange-client calls; and since the condition is
re-evaluated each run rather than cached, this holds equally for a run
started from the state any previous run (with any kill-switch reading
of its own) left behind. -/
theorem kill_switch_spec (cfg : Config) (env env1 : Env)
    (bets bets1 : List Bet) (live live1 : Bool) (b : Bucket)
    (h : kill_switch_enabled env.killEnvValue env.killFileExists = true) :
    trade_best_edges cfg env bets live b = ⟨[], [], b, []⟩ ∧
    trade_best_edges cfg env bets live
        (trade_best_edges cfg env1 bets1 live1 b).bucket =
      ⟨[], [], (trade_best_edges cfg env1 bets1 live1 b).bucket, []⟩ :=
  ⟨kill_noop cfg env bets live b h,
   kill_noop cfg env bets live (trade_best_edges cfg env1 bets1 live1 b).bucket h⟩

end Autotrader

namespace Autotrader

theorem place_loop_attempts_le (resp : ℕ → Option (Option String))
    (fuel attempt : ℕ) :
    (place_loop resp attempt fuel).attemptsMade ≤ attempt + fuel := by
  induction fuel generalizing attempt with
  | zero => simp [place_loop]
  | succ f ih =>
    cases hr : resp attempt with
    | some e => simp [place_loop, hr]
    | none =>
      simp only [place_loop, hr]
      have := ih (attempt + 1)
      omega

theorem place_loop_sleeps (resp : ℕ → Option (Option String))
    (fuel attempt : ℕ) :
    ∃ k, k ≤ fuel ∧
      (place_loop resp attempt fuel).sleeps =
        (List.range k).map (fun i => 2 ^ (attempt + i)) := by
  induction fuel generalizing attempt with
  | zero => exact ⟨0, Nat.le_refl 0, by simp [place_loop]⟩
  | succ f ih =>
    cases hr : resp attempt with
    | some e => exact ⟨0, by omega, by simp [place_loop, hr]⟩
    | none =>
      obtain ⟨k, hk, he⟩ := ih (attempt + 1)
      refine ⟨k + 1, by omega, ?_⟩
      simp only [place_loop, hr]
      rw [he, List.range_succ_eq_map, List.map_cons, List.map_map]
      have hf : ((fun i => 2 ^ (attempt + i)) ∘ Nat.succ) =
          (fun i => 2 ^ (attempt + 1 + i)) := by
        funext i
        simp only [Function.comp]
        congr 1
        omega
      rw [hf]
      simp

theorem place_loop_all_fail (resp : ℕ → Option (Option String))
    (fuel attempt : ℕ)
    (h : ∀ j, attempt ≤ j → j < attempt + fuel → resp j = none) :
    (place_loop resp attempt fuel).success = none := by
  induction fuel generalizing attempt with
  | zero => rfl
  | succ f ih =>
    have h0 := h attempt (Nat.le_refl _) (by omega)
    simp only [place_loop, h0]
    exact ih (attempt + 1) (fun j hj1 hj2 => h j (by omega) (by omega))

theorem place_loop_some (resp : ℕ → Option (Option String))
    (fuel attempt : ℕ)
    (h : ∃ j, attempt ≤ j ∧ j < attempt + fuel ∧ resp j ≠ none) :
    ∃ e, (place_loop resp attempt fuel).success = some e := by
  induction fuel generalizing attempt with
  | zero =>
    obtain ⟨j, h1, h2, _⟩ := h
    omega
  | succ f ih =>
    cases hr : resp attempt with
    | some e => exact ⟨e, by simp [place_loop, hr]⟩
    | none =>
      obtain ⟨j, h1, h2, h3⟩ := h
      have hj : attempt + 1 ≤ j := by
        rcases Nat.eq_or_lt_of_le h1 with rfl | hlt
        · exact absurd hr h3
        · omega
      obtain ⟨e, he⟩ := ih (attempt + 1) ⟨j, hj, by omega, h3⟩
      refine ⟨e, ?_⟩
      simp only [place_loop, hr]
      exact he

theorem place_live_eq (cfg : Config) (resp : ℕ → Option (Option String))
    (t tm s a : String) (c : ℤ) (yp : ℚ) (po : Bool) (oid : String)
    (ntl : ℚ) (b : Bucket) :
    place cfg resp true t tm s a c yp po oid ntl b =
      (match (place_loop resp 0 cfg.order_retries).success with
      | none => ⟨none, b,
          List.replicate (place_loop resp 0 cfg.order_retries).attemptsMade
            (ExchangeCall.placeOrder t s a c (roundHalfEven (yp * 100)) po oid),
          (place_loop resp 0 cfg.order_retries).sleeps⟩
      | some extracted =>
        let o : RecordedOrder :=
          ⟨t, tm, s, a, c, yp, po, oid, final_order_id oid extracted, ntl⟩
        ⟨some o, record_order b o,
          List.replicate (place_loop resp 0 cfg.order_retries).attemptsMade
            (ExchangeCall.placeOrder t s a c (roundHalfEven (yp * 100)) po oid),
          (place_loop resp 0 cfg.order_retries).sleeps⟩) := by
  rfl

/-- C5: in live mode the exchange call is attempted at most
`order_retries` times, with `2 ^ attempt` seconds of backoff between
consecutive attempts (the sleep list is exactly `2^0, 2^1, ...`); if
some attempt within the budget returns a response, exactly one order
is recorded (`record_order` appends exactly one id and one order, then
persists); if every attempt fails, the submission returns None and the
ledger bucket is left completely unchanged. -/
theorem place_retry_spec (cfg : Config) (resp : ℕ → Option (Option String))
    (t tm s a : String) (c : ℤ) (yp : ℚ) (po : Bool) (oid : String)
    (ntl : ℚ) (b : Bucket) :
    (place cfg resp true t tm s a c yp po oid ntl b).calls.length ≤
        cfg.order_retries ∧
    ((place cfg resp true t tm s a c yp po oid ntl b).sleeps =
        (List.range
          (place cfg resp true t tm s a c yp po oid ntl b).sleeps.length).map
          (2 ^ ·) ∧
      (place cfg resp true t tm s a c yp po oid ntl b).sleeps.length ≤
        cfg.order_retries) ∧
    ((∃ j, j < cfg.order_retries ∧ resp j ≠ none) →
      ∃ o, (place cfg resp true t tm s a c yp po oid ntl b).result = some o ∧
        (place cfg resp true t tm s a c yp po oid ntl b).bucket =
          record_order b o) ∧
    ((∀ j, j < cfg.order_retries → resp j = none) →
      (place cfg resp true t tm s a c yp po oid ntl b).result = none ∧
        (place cfg resp true t tm s a c yp po oid ntl b).bucket = b) := by
  have hatt := place_loop_attempts_le resp cfg.order_retries 0
  obtain ⟨k, hk, hsl⟩ := place_loop_sleeps resp cfg.order_retries 0
  simp only [Nat.zero_add] at hatt hsl
  rcases hs : (place_loop resp 0 cfg.order_retries).success with _ | e
  · refine ⟨?_, ⟨?_, ?_⟩, ?_, ?_⟩
    · simp [place_live_eq, hs, List.length_replicate]
      exact hatt
    · simp only [place_live_eq, hs]
      rw [hsl]
      simp
    · simp only [place_live_eq, hs]
      rw [hsl]
      simpa using hk
    · intro hex
      exfalso
      obtain ⟨e, he⟩ := place_loop_some resp cfg.order_retries 0
        (by obtain ⟨j, hj, hne⟩ := hex; exact ⟨j, by omega, by omega, hne⟩)
      rw [hs] at he
      exact Option.noConfusion he
    · intro _
      constructor <;> simp [place_live_eq, hs]
  · refine ⟨?_, ⟨?_, ?_⟩, ?_, ?_⟩
    · simp [place_live_eq, hs, List.length_replicate]
      exact hatt
    · simp only [place_live_eq, hs]
      rw [hsl]
      simp
    · simp only [place_live_eq, hs]
      rw [hsl]
      simpa using hk
    · intro _
      exact ⟨⟨t, tm, s, a, c, yp, po, oid, final_order_id oid e, ntl⟩,
        by simp [place_live_eq, hs], by simp [place_live_eq, hs]⟩
    · intro hall
      exfalso
      have := place_loop_all_fail resp cfg.order_retries 0
        (fun j _ hj => hall j (by omega))
      rw [hs] at this
      exact Option.noConfusion this

theorem place_retry_spec_witness :
    ((∃ j, j < (3:ℕ) ∧ (fun j => if j = 1 then some (some "X") else none) j ≠ none) ∧
      ∃ o, (place { bankroll := 100 }
          (fun j => if j = 1 then some (some "X") else none) true
          "T" "Duke" "YES" "BUY" 10 (1/2) false "id1" 5 ⟨[], []⟩).result = some o ∧
        (place { bankroll := 100 }
          (fun j => if j = 1 then some (some "X") else none) true
          "T" "Duke" "YES" "BUY" 10 (1/2) false "id1" 5 ⟨[], []⟩).bucket =
          record_order ⟨[], []⟩ o) ∧
    ((∀ j, j < (3:ℕ) → (fun (_ : ℕ) => (none : Option (Option String))) j = none) ∧
      (place { bankroll := 100 } (fun _ => none) true
          "T" "Duke" "YES" "BUY" 10 (1/2) false "id1" 5 ⟨[], []⟩).result = none ∧
        (place { bankroll := 100 } (fun _ => none) true
          "T" "Duke" "YES" "BUY" 10 (1/2) false "id1" 5 ⟨[], []⟩).bucket = ⟨[], []⟩) :=
  ⟨⟨⟨1, by decide, by decide⟩,
    (place_retry_spec { bankroll := 100 }
      (fun j => if j = 1 then some (some "X") else none)
      "T" "Duke" "YES" "BUY" 10 (1/2) false "id1" 5 ⟨[], []⟩).2.2.1
      ⟨1, by decide, by decide⟩⟩,
   ⟨fun _ _ => rfl,
    (place_retry_spec { bankroll := 100 } (fun _ => none)
      "T" "Duke" "YES" "BUY" 10 (1/2) false "id1" 5 ⟨[], []⟩).2.2.2
      (fun _ _ => rfl)⟩⟩

end Autotrader

namespace Kalshi

theorem requestLoop_all_fail (D : Type) (o : ℕ → HttpOutcome D)
    (fuel attempt : ℕ)
    (h : ∀ j, attempt ≤ j → j < attempt + fuel →
      o j = .rateLimited ∨ o j = .requestException) :
    (requestLoop D o attempt fuel).1 = none := by
  induction fuel generalizing attempt with
  | zero => rfl
  | succ f ih =>
    rcases h attempt (Nat.le_refl _) (by omega) with h0 | h0
    · simp only [requestLoop, h0]
      exact ih (attempt + 1) (fun j hj1 hj2 => h j (by omega) (by omega))
    · simp only [requestLoop, h0]
      by_cases hf : f = 0
      · simp [hf]
      · simp only [if_neg hf]
        exact ih (attempt + 1) (fun j hj1 hj2 => h j (by omega) (by omega))

theorem requestLoop_sleeps (D : Type) (o : ℕ → HttpOutcome D)
    (fuel attempt : ℕ) :
    ∃ k, k ≤ fuel ∧
      (requestLoop D o attempt fuel).2 =
        (List.range k).map (fun i => 2 ^ (attempt + i)) := by
  induction fuel generalizing attempt with
  | zero => exact ⟨0, Nat.le_refl 0, by simp [requestLoop]⟩
  | succ f ih =>
    have hcons : ∀ k, k ≤ f →
        (2 ^ attempt :: (List.range k).map (fun i => 2 ^ (attempt + 1 + i))) =
          (List.range (k + 1)).map (fun i => 2 ^ (attempt + i)) := by
      intro k hk
      rw [List.range_succ_eq_map, List.map_cons, List.map_map]
      have hf : ((fun i => 2 ^ (attempt + i)) ∘ Nat.succ) =
          (fun i => 2 ^ (attempt + 1 + i)) := by
        funext i
        simp only [Function.comp]
        congr 1
        omega
      rw [hf]
      simp
    cases ho : o attempt with
    | rateLimited =>
      obtain ⟨k, hk, he⟩ := ih (attempt + 1)
      refine ⟨k + 1, by omega, ?_⟩
      simp only [requestLoop, ho]
      rw [he]
      exact hcons k hk
    | requestException =>
      by_cases hf : f = 0
      · exact ⟨0, by omega, by simp [requestLoop, ho, hf]⟩
      · obtain ⟨k, hk, he⟩ := ih (attempt + 1)
        refine ⟨k + 1, by omega, ?_⟩
        simp only [requestLoop, ho, if_neg hf]
        rw [he]
        exact hcons k hk
    | okEmpty => exact ⟨0, by omega, by simp [requestLoop, ho]⟩
    | okJson d => exact ⟨0, by omega, by simp [requestLoop, ho]⟩

theorem requestLoop_success (D : Type) (o : ℕ → HttpOutcome D)
    (fuel attempt i : ℕ) (hi1 : attempt ≤ i) (hi2 : i < attempt + fuel)
    (hprev : ∀ j, attempt ≤ j → j < i →
      o j = .rateLimited ∨
        (o j = .requestException ∧ j + 1 < attempt + fuel)) :
    (∀ d, o i = .okJson d → (requestLoop D o attempt fuel).1 = some (some d)) ∧
    (o i = .okEmpty → (requestLoop D o attempt fuel).1 = some none) := by
  induction fuel generalizing attempt with
  | zero => omega
  | succ f ih =>
    by_cases hia : i = attempt
    · subst hia
      constructor
      · intro d hd
        simp [requestLoop, hd]
      · intro hd
        simp [requestLoop, hd]
    · have h1 : attempt < i := by omega
      rcases hprev attempt (Nat.le_refl _) h1 with hp | ⟨hp, hlt⟩
      · simp only [requestLoop, hp]
        exact ih (attempt + 1) (by omega) (by omega)
          (fun j hj1 hj2 => by
            rcases hprev j (by omega) hj2 with hq | ⟨hq, hq2⟩
            · exact Or.inl hq
            · exact Or.inr ⟨hq, by omega⟩)
      · have hf : f ≠ 0 := by omega
        simp only [requestLoop, hp, if_neg hf]
        exact ih (attempt + 1) (by omega) (by omega)
          (fun j hj1 hj2 => by
            rcases hprev j (by omega) hj2 with hq | ⟨hq, hq2⟩
            · exact Or.inl hq
            · exact Or.inr ⟨hq, by omega⟩)

/-- C6: the generic request wrapper retries a 429 with `2 ^ attempt`
seconds of backoff and retries any other transport failure within the
same bound of `maxRetries = 3` attempts; a response that arrives
within the budget is returned, and once the budget is exhausted the
wrapper returns the definitive failure value None — the enumerated
`HttpOutcome` type is exactly the set of exceptions the wrapper
catches, so no exception escapes to the caller. -/
theorem request_wrapper_spec (D : Type) (o : ℕ → HttpOutcome D) :
    ((∀ i, i < maxRetries →
        o i = .rateLimited ∨ o i = .requestException) →
      (request D o).1 = none) ∧
    (∃ k, k ≤ maxRetries ∧
      (request D o).2 = (List.range k).map (2 ^ ·)) ∧
    (∀ i, i < maxRetries →
      (∀ j, j < i → o j = .rateLimited ∨
        (o j = .requestException ∧ j + 1 < maxRetries)) →
      (∀ d, o i = .okJson d → (request D o).1 = some (some d)) ∧
      (o i = .okEmpty → (request D o).1 = some none)) := by
  refine ⟨?_, ?_, ?_⟩
  · intro hall
    exact requestLoop_all_fail D o maxRetries 0
      (fun j hj1 hj2 => hall j (by omega))
  · obtain ⟨k, hk, he⟩ := requestLoop_sleeps D o maxRetries 0
    refine ⟨k, hk, ?_⟩
    rw [request, he]
    simp
  · intro i hi hprev
    exact requestLoop_success D o maxRetries 0 i (by omega) (by omega)
      (fun j hj1 hj2 => by
        rcases hprev j hj2 with hq | ⟨hq, hq2⟩
        · exact Or.inl hq
        · exact Or.inr ⟨hq, by omega⟩)

theorem request_wrapper_spec_witness :
    ((∀ i, i < maxRetries →
        (fun (_ : ℕ) => (HttpOutcome.requestException : HttpOutcome ℕ)) i =
            .rateLimited ∨
          (fun (_ : ℕ) => (HttpOutcome.requestException : HttpOutcome ℕ)) i =
            .requestException) ∧
      (request ℕ (fun _ => HttpOutcome.requestException)).1 = none) ∧
    ((1:ℕ) < maxRetries ∧
      (request ℕ (fun j => if j = 0 then .rateLimited else .okJson 7)).1 =
        some (some 7)) :=
  ⟨⟨fun _ _ => Or.inr rfl,
    (request_wrapper_spec ℕ (fun _ => HttpOutcome.requestException)).1
      (fun _ _ => Or.inr rfl)⟩,
   ⟨by decide,
    ((request_wrapper_spec ℕ
        (fun j => if j = 0 then .rateLimited else .okJson 7)).2.2 1 (by decide)
      (fun j hj => by
        interval_cases j
        · exact Or.inl rfl)).1 7 rfl⟩⟩

end Kalshi

namespace Autotrader

theorem place_cases (cfg : Config) (resp : ℕ → Option (Option String))
    (live : Bool) (t tm s a : String) (c : ℤ) (yp : ℚ) (po : Bool)
    (oid : String) (ntl : ℚ) (b : Bucket) :
    ((place cfg resp live t tm s a c yp po oid ntl b).result = none ∧
     (place cfg resp live t tm s a c yp po oid ntl b).bucket = b) ∨
    ∃ o : RecordedOrder,
      (place cfg resp live t tm s a c yp po oid ntl b).result = some o ∧
      (place cfg resp live t tm s a c yp po oid ntl b).bucket =
        record_order b o ∧
      o.ticker = t ∧ o.side = s ∧ o.action = a ∧ o.count = c ∧
      o.yes_price = yp ∧ o.post_only = po ∧ o.client_order_id = oid ∧
      o.notional = ntl := by
  cases live with
  | false =>
    exact Or.inr ⟨⟨t, tm, s, a, c, yp, po, oid, oid, ntl⟩,
      rfl, rfl, rfl, rfl, rfl, rfl, rfl, rfl, rfl, rfl⟩
  | true =>
    rcases hs : (place_loop resp 0 cfg.order_retries).success with _ | e
    · left
      constructor <;> simp [place_live_eq, hs]
    · right
      refine ⟨⟨t, tm, s, a, c, yp, po, oid, final_order_id oid e, ntl⟩,
        ?_, ?_, rfl, rfl, rfl, rfl, rfl, rfl, rfl, rfl⟩ <;>
        simp [place_live_eq, hs]

theorem trade_step_cases (cfg : Config) (env : Env) (live : Bool)
    (ex op : List String) (bet : Bet) (st : RunState) :
    ((trade_step cfg env live ex op bet st).bucket = st.bucket ∧
     (trade_step cfg env live ex op bet st).taker = st.taker ∧
     (trade_step cfg env live ex op bet st).maker = st.maker) ∨
    ∃ o : RecordedOrder,
      (trade_step cfg env live ex op bet st).bucket =
        record_order st.bucket o ∧
      o.ticker = bet.contract_ticker ∧
      o.client_order_id ∉ ex ∧ o.client_order_id ∉ op ∧
      o.count = quarter_kelly_contracts cfg bet.model_prob_or_exp_payout
        (chosen cfg env bet).2 ∧
      o.notional = (o.count : ℚ) * (chosen cfg env bet).2 ∧
      can_allocate_notional cfg st.bucket bet.contract_ticker o.notional
        = true := by
  unfold trade_step
  simp only []
  by_cases h1 : quarter_kelly_contracts cfg bet.model_prob_or_exp_payout
      (chosen cfg env bet).2 ≤ 0
  · rw [if_pos h1]
    exact Or.inl ⟨rfl, rfl, rfl⟩
  · rw [if_neg h1]
    by_cases h2 : can_allocate_notional cfg st.bucket bet.contract_ticker
        ((quarter_kelly_contracts cfg bet.model_prob_or_exp_payout
          (chosen cfg env bet).2 : ℚ) * (chosen cfg env bet).2) = true
    · rw [if_neg (by simpa using h2)]
      by_cases h3 : idempotency_id env.dateKey bet.contract_ticker "YES" "BUY"
          (roundHalfEven ((chosen cfg env bet).2 * 100))
          (chosen cfg env bet).1 ∈ ex ∨
        idempotency_id env.dateKey bet.contract_ticker "YES" "BUY"
          (roundHalfEven ((chosen cfg env bet).2 * 100))
          (chosen cfg env bet).1 ∈ op
      · rw [if_pos h3]
        exact Or.inl ⟨rfl, rfl, rfl⟩
      · rw [if_neg h3]
        rcases place_cases cfg (env.placeResp st.placeCallIdx) live
            bet.contract_ticker bet.team_name "YES" "BUY"
            (quarter_kelly_contracts cfg bet.model_prob_or_exp_payout
              (chosen cfg env bet).2)
            (chosen cfg env bet).2 (chosen cfg env bet).1
            (idempotency_id env.dateKey bet.contract_ticker "YES" "BUY"
              (roundHalfEven ((chosen cfg env bet).2 * 100))
              (chosen cfg env bet).1)
            ((quarter_kelly_contracts cfg bet.model_prob_or_exp_payout
              (chosen cfg env bet).2 : ℚ) * (chosen cfg env bet).2)
            st.bucket with
          ⟨hres, hbuc⟩ | ⟨o, hres, hbuc, hot, _, _, hoc, _, _, hoid, hon⟩
        · simp only [hres]
          exact Or.inl ⟨hbuc, trivial, trivial⟩
        · simp only [hres]
          right
          refine ⟨o, ?_, hot, ?_, ?_, ?_, ?_, ?_⟩
          · by_cases h4 : (chosen cfg env bet).1 = true
            · rw [if_pos h4]
              exact hbuc
            · rw [if_neg h4]
              exact hbuc
          · rw [hoid]; intro hmem; exact h3 (Or.inl hmem)
          · rw [hoid]; intro hmem; exact h3 (Or.inr hmem)
          · exact hoc
          · rw [hon, hoc]
          · rw [hon]; exact h2
    · rw [if_pos (by simpa using h2)]
      exact Or.inl ⟨rfl, rfl, rfl⟩

end Autotrader

namespace Autotrader

/-- The exposure invariant of the spec: today's total notional is
within the daily cap, and each ticker's notional within the per-market
cap. -/
def capsOk (cfg : Config) (b : Bucket) : Prop :=
  daily_notional b ≤ cfg.max_daily_exposure ∧
  ∀ t, market_notional b t ≤ cfg.max_per_market_exposure

theorem daily_notional_record (b : Bucket) (o : RecordedOrder) :
    daily_notional (record_order b o) = daily_notional b + o.notional := by
  simp [daily_notional, record_order]

theorem market_notional_record (b : Bucket) (o : RecordedOrder) (t : String) :
    market_notional (record_order b o) t =
      market_notional b t + (if o.ticker == t then o.notional else 0) := by
  simp only [market_notional, record_order, List.filter_append]
  rw [List.map_append, List.sum_append]
  congr 1
  by_cases h : o.ticker == t
  · simp [List.filter, h]
  · simp [List.filter, h]

theorem can_allocate_le (cfg : Config) (b : Bucket) (t : String) (n : ℚ)
    (h : can_allocate_notional cfg b t n = true) :
    daily_notional b + n ≤ cfg.max_daily_exposure ∧
    market_notional b t + n ≤ cfg.max_per_market_exposure := by
  unfold can_allocate_notional at h
  split_ifs at h with h1 h2
  exact ⟨le_of_not_lt h1, le_of_not_lt h2⟩

theorem trade_step_capsOk (cfg : Config) (env : Env) (live : Bool)
    (ex op : List String) (bet : Bet) (st : RunState)
    (h : capsOk cfg st.bucket) :
    capsOk cfg (trade_step cfg env live ex op bet st).bucket := by
  rcases trade_step_cases cfg env live ex op bet st with
    ⟨hb, _, _⟩ | ⟨o, hb, hticker, _, _, _, _, halloc⟩
  · rw [hb]; exact h
  · rw [hb]
    obtain ⟨hd, hm⟩ := can_allocate_le cfg st.bucket bet.contract_ticker
      o.notional halloc
    constructor
    · rw [daily_notional_record]
      exact hd
    · intro t
      rw [market_notional_record]
      by_cases ht : o.ticker == t
      · rw [if_pos ht]
        have het : t = bet.contract_ticker := by
          rw [← eq_of_beq ht, hticker]
        rw [het]
        exact hm
      · rw [if_neg ht, add_zero]
        exact h.2 t

theorem trade_loop_capsOk (cfg : Config) (env : Env) (live : Bool)
    (ex op : List String) (l : List Bet) (st : RunState)
    (h : capsOk cfg st.bucket) :
    capsOk cfg (trade_loop cfg env live ex op l st).bucket := by
  induction l generalizing st with
  | nil => exact h
  | cons bet rest ih =>
    unfold trade_loop
    by_cases hb : cfg.max_orders_per_run ≤ st.placed_count
    · rw [if_pos hb]; exact h
    · rw [if_neg hb]
      exact ih _ (trade_step_capsOk cfg env live ex op bet st h)

theorem trade_step_cap_reject (cfg : Config) (env : Env) (live : Bool)
    (ex op : List String) (bet : Bet) (st : RunState)
    (h : ¬ can_allocate_notional cfg st.bucket bet.contract_ticker
      ((quarter_kelly_contracts cfg bet.model_prob_or_exp_payout
        (chosen cfg env bet).2 : ℚ) * (chosen cfg env bet).2) = true) :
    (trade_step cfg env live ex op bet st).bucket = st.bucket ∧
    (trade_step cfg env live ex op bet st).taker = st.taker ∧
    (trade_step cfg env live ex op bet st).maker = st.maker := by
  unfold trade_step
  simp only []
  by_cases h1 : quarter_kelly_contracts cfg bet.model_prob_or_exp_payout
      (chosen cfg env bet).2 ≤ 0
  · rw [if_pos h1]
    exact ⟨rfl, rfl, rfl⟩
  · rw [if_neg h1, if_pos (by simpa using h)]
    exact ⟨rfl, rfl, rfl⟩

/-- C2: starting from a ledger bucket whose daily and per-market
notional sums are within the caps, the invariant holds after every
candidate is processed (every prefix of the run), hence after every
order is recorded; a candidate whose admission would breach either cap
leaves the bucket and both result lists untouched — it is skipped
entirely, never sized down (every recorded order carries the full
quarter-Kelly count, per `trade_step_cases`); and the bucket a full
`trade_best_edges` run leaves behind still satisfies both caps. -/
theorem exposure_caps_spec (cfg : Config) (env : Env) (live : Bool)
    (ex op : List String) (bets : List Bet) (st : RunState)
    (h : capsOk cfg st.bucket) :
    (∀ n, capsOk cfg
      (trade_loop cfg env live ex op (bets.take n) st).bucket) ∧
    (∀ bet : Bet, ¬ can_allocate_notional cfg st.bucket bet.contract_ticker
        ((quarter_kelly_contracts cfg bet.model_prob_or_exp_payout
          (chosen cfg env bet).2 : ℚ) * (chosen cfg env bet).2) = true →
      (trade_step cfg env live ex op bet st).bucket = st.bucket ∧
      (trade_step cfg env live ex op bet st).taker = st.taker ∧
      (trade_step cfg env live ex op bet st).maker = st.maker) ∧
    capsOk cfg (trade_best_edges cfg env bets live st.bucket).bucket := by
  refine ⟨?_, ?_, ?_⟩
  · intro n
    exact trade_loop_capsOk cfg env live ex op (bets.take n) st h
  · intro bet hcap
    exact trade_step_cap_reject cfg env live ex op bet st hcap
  · unfold trade_best_edges
    split
    · exact h
    · exact trade_loop_capsOk cfg env live _ _ _ _ h

theorem exposure_caps_spec_witness :
    capsOk { bankroll := 100 } (Bucket.mk [] []) ∧
    capsOk { bankroll := 100 }
      (trade_best_edges { bankroll := 100 }
        { dateKey := "2025-03-20",
          marketPrices := fun _ => { yes_buy_price := 1/2 } }
        [⟨6/10, 2/10, "T", "Duke"⟩] false (Bucket.mk [] [])).bucket := by
  have h0 : capsOk { bankroll := 100 } (Bucket.mk [] []) := by
    constructor
    · norm_num [daily_notional]
    · intro t
      norm_num [market_notional]
  exact ⟨h0,
    (exposure_caps_spec { bankroll := 100 }
      { dateKey := "2025-03-20",
        marketPrices := fun _ => { yes_buy_price := 1/2 } }
      false [] [] [⟨6/10, 2/10, "T", "Duke"⟩]
      ⟨Bucket.mk [] [], [], [], 0, 0, []⟩ h0).2.2⟩

end Autotrader

namespace Autotrader

theorem trade_loop_new_orders (cfg : Config) (env : Env) (live : Bool)
    (ex op : List String) (l : List Bet) (st : RunState) :
    ∃ new : List RecordedOrder,
      (trade_loop cfg env live ex op l st).bucket.orders =
        st.bucket.orders ++ new ∧
      (trade_loop cfg env live ex op l st).bucket.submitted_ids =
        st.bucket.submitted_ids ++ new.map (·.client_order_id) ∧
      ∀ o ∈ new, o.client_order_id ∉ ex ∧ o.client_order_id ∉ op := by
  induction l generalizing st with
  | nil => exact ⟨[], by simp [trade_loop], by simp [trade_loop], by simp⟩
  | cons bet rest ih =>
    unfold trade_loop
    by_cases hb : cfg.max_orders_per_run ≤ st.placed_count
    · rw [if_pos hb]
      exact ⟨[], by simp, by simp, by simp⟩
    · rw [if_neg hb]
      obtain ⟨new, h1, h2, h3⟩ := ih (trade_step cfg env live ex op bet st)
      rcases trade_step_cases cfg env live ex op bet st with
        ⟨hbuc, _, _⟩ | ⟨o, hbuc, _, hex, hop, _, _, _⟩
      · exact ⟨new, by rw [h1, hbuc], by rw [h2, hbuc], h3⟩
      · refine ⟨o :: new, ?_, ?_, ?_⟩
        · rw [h1, hbuc]
          simp [record_order]
        · rw [h2, hbuc]
          simp [record_order]
        · intro o' ho'
          rcases List.mem_cons.mp ho' with rfl | ho'
          · exact ⟨hex, hop⟩
          · exact h3 o' ho'

theorem trade_step_dup_reject (cfg : Config) (env : Env) (live : Bool)
    (ex op : List String) (bet : Bet) (st : RunState)
    (h : idempotency_id env.dateKey bet.contract_ticker "YES" "BUY"
        (roundHalfEven ((chosen cfg env bet).2 * 100))
        (chosen cfg env bet).1 ∈ ex ∨
      idempotency_id env.dateKey bet.contract_ticker "YES" "BUY"
        (roundHalfEven ((chosen cfg env bet).2 * 100))
        (chosen cfg env bet).1 ∈ op) :
    (trade_step cfg env live ex op bet st).bucket = st.bucket ∧
    (trade_step cfg env live ex op bet st).taker = st.taker ∧
    (trade_step cfg env live ex op bet st).maker = st.maker := by
  unfold trade_step
  simp only []
  by_cases h1 : quarter_kelly_contracts cfg bet.model_prob_or_exp_payout
      (chosen cfg env bet).2 ≤ 0
  · rw [if_pos h1]
    exact ⟨rfl, rfl, rfl⟩
  · rw [if_neg h1]
    by_cases hca : can_allocate_notional cfg st.bucket bet.contract_ticker
        ((quarter_kelly_contracts cfg bet.model_prob_or_exp_payout
          (chosen cfg env bet).2 : ℚ) * (chosen cfg env bet).2) = true
    · rw [if_neg (by simpa using hca), if_pos h]
      exact ⟨rfl, rfl, rfl⟩
    · rw [if_pos (by simpa using hca)]
      exact ⟨rfl, rfl, rfl⟩

/-- C1 (amended): every order recorded by a run of `trade_best_edges`
carries a client-order-id that was absent from the ledger bucket's
submitted ids at run start and (in live mode) from the open-order
snapshot fetched at run start, and exactly those ids are appended to
the bucket's id list; a candidate whose derived id is in either
snapshot is rejected without touching the ledger or the result lists.
Hence a submission repeated in a later run — of the same process or of
another process sharing the state file — records at most one order.
Within a single run the snapshots are not refreshed after a
recording, so two same-run candidates deriving the same id are both
recorded (see the counterexample). -/
theorem idempotency_snapshot_spec (cfg : Config) (env : Env)
    (bets : List Bet) (live : Bool) (b : Bucket) :
    (∃ new : List RecordedOrder,
      (trade_best_edges cfg env bets live b).bucket.orders =
        b.orders ++ new ∧
      (trade_best_edges cfg env bets live b).bucket.submitted_ids =
        b.submitted_ids ++ new.map (·.client_order_id) ∧
      ∀ o ∈ new,
        o.client_order_id ∉ b.submitted_ids ∧
        (live = true →
          o.client_order_id ∉
            env.openOrderCids.filter (fun s => !(s == "")))) ∧
    (∀ (ex op : List String) (bet : Bet) (st : RunState),
      (idempotency_id env.dateKey bet.contract_ticker "YES" "BUY"
          (roundHalfEven ((chosen cfg env bet).2 * 100))
          (chosen cfg env bet).1 ∈ ex ∨
        idempotency_id env.dateKey bet.contract_ticker "YES" "BUY"
          (roundHalfEven ((chosen cfg env bet).2 * 100))
          (chosen cfg env bet).1 ∈ op) →
      (trade_step cfg env live ex op bet st).bucket = st.bucket ∧
      (trade_step cfg env live ex op bet st).taker = st.taker ∧
      (trade_step cfg env live ex op bet st).maker = st.maker) := by
  constructor
  · unfold trade_best_edges
    split
    · exact ⟨[], by simp, by simp, by simp⟩
    · simp only []
      obtain ⟨new, h1, h2, h3⟩ := trade_loop_new_orders cfg env live
        b.submitted_ids
        (if live then env.openOrderCids.filter (fun s => !(s == "")) else [])
        (sortByEvDesc (bets.filter fun bb =>
          decide (cfg.min_edge ≤ bb.ev) && !(bb.contract_ticker == "")))
        ⟨b, [], [], 0, 0,
          if live then [ExchangeCall.getOpenOrders] else []⟩
      refine ⟨new, h1, h2, fun o ho => ⟨(h3 o ho).1, fun hl => ?_⟩⟩
      have h4 := (h3 o ho).2
      rw [hl] at h4
      simpa using h4
  · intro ex op bet st hdup
    exact trade_step_dup_reject cfg env live ex op bet st hdup

/-- C1 counterexample: two candidates in one run that derive the same
client-order-id (same mode tag, date key, ticker, side, action and
price-in-cents) are BOTH recorded — the duplicate check consults only
the snapshot of submitted ids taken at run start, which is not
refreshed after the first recording — refuting "at most one order is
recorded" for the same-run case. -/
theorem same_run_duplicate_counterexample :
    ((trade_best_edges { bankroll := 100 }
        { dateKey := "2025-03-20",
          marketPrices := fun _ => { yes_buy_price := 1/2 } }
        [⟨6/10, 2/10, "T", "Duke"⟩, ⟨6/10, 2/10, "T", "Duke"⟩]
        false ⟨[], []⟩).bucket.orders.map (·.client_order_id)) =
      ["tk-2025-03-20-T-YES-BUY-50", "tk-2025-03-20-T-YES-BUY-50"] := by
  have hT : ("T" == "") = false := by decide
  norm_num [trade_best_edges, kill_switch_enabled, pyStrip, sortByEvDesc,
    insertByEvDesc, trade_loop, trade_step, chosen, taker_price,
    quarter_kelly_contracts, can_allocate_notional, daily_notional,
    market_notional, idempotency_id, roundHalfEven, place, record_order,
    final_order_id, List.filter, hT]
  decide

end Autotrader

namespace Autotrader

theorem kill_switch_spec_witness :
    trade_best_edges { bankroll := 100 }
        { killFileExists := true, dateKey := "2025-03-20",
          marketPrices := fun _ => { yes_buy_price := 1/2 } }
        [⟨6/10, 2/10, "T", "Duke"⟩] false ⟨[], []⟩ =
      ⟨[], [], ⟨[], []⟩, []⟩ :=
  (kill_switch_spec { bankroll := 100 }
    { killFileExists := true, dateKey := "2025-03-20",
      marketPrices := fun _ => { yes_buy_price := 1/2 } }
    { killFileExists := true, dateKey := "2025-03-20",
      marketPrices := fun _ => { yes_buy_price := 1/2 } }
    [⟨6/10, 2/10, "T", "Duke"⟩] [] false false ⟨[], []⟩ (by decide)).1

theorem foldl_min_mem (m : ℕ) (ms : List ℕ) : ms.foldl min m ∈ m :: ms := by
  induction ms generalizing m with
  | nil => simp
  | cons x xs ih =>
    have h := ih (min m x)
    rcases List.mem_cons.mp h with h | h
    · rcases min_choice m x with hc | hc
      · rw [List.foldl_cons, h, hc]
        exact List.mem_cons_self m _
      · rw [List.foldl_cons, h, hc]
        exact List.mem_cons_of_mem m (List.mem_cons_self x xs)
    · exact List.mem_cons_of_mem m (List.mem_cons_of_mem x h)

theorem foldl_min_le (m : ℕ) (ms : List ℕ) :
    (∀ x ∈ ms, ms.foldl min m ≤ x) ∧ ms.foldl min m ≤ m := by
  induction ms generalizing m with
  | nil => simp
  | cons y ys ih =>
    obtain ⟨h1, h2⟩ := ih (min m y)
    refine ⟨?_, le_trans h2 (min_le_left m y)⟩
    intro x hx
    rcases List.mem_cons.mp hx with rfl | hx
    · exact le_trans h2 (min_le_right m x)
    · exact h1 x hx

theorem first_tipoff_none (games : List Game) (target : Date)
    (h : parsedTipoffs games = []) :
    first_tipoff_datetime games target = none := by
  unfold first_tipoff_datetime
  rw [h]

/-- C8: "7:00 PM ET" — zone token stripped, clock format parsed,
result anchored to the target date 2025-03-20 — resolves to
2025-03-20 19:00 schedule-local time; the scheduler's first tipoff is
the minimum over the events' parsed local start times, anchored to the
target date; and when no event's time parses, the scheduler performs
no wait, makes no exchange call, cancels nothing, and returns 0. -/
theorem tipoff_schedule_spec :
    (parse_tipoff_text "7:00 PM ET" = some (19 * 60) ∧
      first_tipoff_datetime [⟨"7:00 PM ET"⟩] ⟨2025, 3, 20⟩ =
        some ⟨⟨2025, 3, 20⟩, 19 * 60⟩) ∧
    (∀ (games : List Game) (target : Date) (dt : TipoffDT),
      first_tipoff_datetime games target = some dt →
      dt.date = target ∧ dt.minuteOfDay ∈ parsedTipoffs games ∧
      ∀ m ∈ parsedTipoffs games, dt.minuteOfDay ≤ m) ∧
    (∀ (env : SchedEnv) (games : List Game)
        (maker_orders : List RecordedOrder) (target : Date) (live : Bool),
      parsedTipoffs games = [] →
      cancel_maker_orders_at_first_tipoff env games maker_orders target
        live = (0, 0, [])) := by
  refine ⟨⟨by decide, by decide⟩, ?_, ?_⟩
  · intro games target dt h
    unfold first_tipoff_datetime at h
    rcases hp : parsedTipoffs games with _ | ⟨m, ms⟩
    · rw [hp] at h
      exact Option.noConfusion h
    · rw [hp] at h
      obtain rfl := Option.some.inj h
      refine ⟨rfl, ?_, ?_⟩
      · exact foldl_min_mem m ms
      · intro x hx
        rcases List.mem_cons.mp hx with rfl | hx
        · exact (foldl_min_le x ms).2
        · exact (foldl_min_le m ms).1 x hx
  · intro env games maker_orders target live h
    unfold cancel_maker_orders_at_first_tipoff
    rw [first_tipoff_none games target h]

theorem tipoff_schedule_spec_witness :
    (first_tipoff_datetime [⟨"7:00 PM ET"⟩] ⟨2025, 3, 20⟩ =
        some ⟨⟨2025, 3, 20⟩, 19 * 60⟩ ∧
      (⟨⟨2025, 3, 20⟩, 19 * 60⟩ : TipoffDT).date = (⟨2025, 3, 20⟩ : Date) ∧
      (⟨⟨2025, 3, 20⟩, 19 * 60⟩ : TipoffDT).minuteOfDay ∈
        parsedTipoffs [⟨"7:00 PM ET"⟩] ∧
      ∀ m ∈ parsedTipoffs [⟨"7:00 PM ET"⟩],
        (⟨⟨2025, 3, 20⟩, 19 * 60⟩ : TipoffDT).minuteOfDay ≤ m) ∧
    (parsedTipoffs [⟨"TBD"⟩] = [] ∧
      cancel_maker_orders_at_first_tipoff
        ⟨fun _ => 0, "2025-03-20", [], fun _ => true⟩ [⟨"TBD"⟩] []
        ⟨2025, 3, 20⟩ true = (0, 0, [])) :=
  ⟨⟨by decide,
    (tipoff_schedule_spec.2.1 [⟨"7:00 PM ET"⟩] ⟨2025, 3, 20⟩
      ⟨⟨2025, 3, 20⟩, 19 * 60⟩ (by decide))⟩,
   ⟨by decide,
    tipoff_schedule_spec.2.2 ⟨fun _ => 0, "2025-03-20", [], fun _ => true⟩
      [⟨"TBD"⟩] [] ⟨2025, 3, 20⟩ true (by decide)⟩⟩

end Autotrader
